import Mathlib

/-!
Verification of PDFMail (src/PDFMail.py): a shallow embedding of the
address-list normalization (`setAddressList`), the page grouping and page
emission (`createPDF`, `newPageOne`, `newPageTwo`, `addTwoPages`) of the
`PDF` class, together with proofs about the embedded definitions.

Strings model Python `str`; Python's lexicographic code-point comparison
on strings is embedded as an executable comparator (`strLtB` / `strLeB`),
and Python's `sorted(..., key=...)` — the stable sort by key — is embedded
as a stable insertion sort (`sortK`), shown below to be sorted, a
permutation, and stable, which characterises `sorted` uniquely.
-/

namespace PDFMail

/-! ### Python string comparison: lexicographic by code point -/

/-- Code-point comparison of characters, as Python compares them. -/
def charBlt (a b : Char) : Bool := decide (a.toNat < b.toNat)

/-- Lexicographic comparison of character lists (Python `str.__lt__`). -/
def listLtB : List Char → List Char → Bool
  | [], [] => false
  | [], _ :: _ => true
  | _ :: _, [] => false
  | a :: as, b :: bs => if charBlt a b then true else if charBlt b a then false else listLtB as bs

/-- Python `a < b` on strings. -/
def strLtB (a b : String) : Bool := listLtB a.data b.data

/-- Python `a <= b` on strings (total-order complement of `strLtB`). -/
def strLeB (a b : String) : Bool := ! strLtB b a

theorem charBlt_asymm {a b : Char} (h : charBlt a b = true) : charBlt b a = false := by
  simp only [charBlt, decide_eq_true_eq, decide_eq_false_iff_not] at *
  omega

theorem charBlt_antisymm {a b : Char} (h₁ : charBlt a b = false) (h₂ : charBlt b a = false) :
    a = b := by
  simp only [charBlt, decide_eq_false_iff_not] at h₁ h₂
  have h : a.toNat = b.toNat := by omega
  exact Char.eq_of_val_eq (UInt32.ext h)

theorem charBlt_trans {a b c : Char} (h₁ : charBlt a b = true) (h₂ : charBlt b c = true) :
    charBlt a c = true := by
  simp only [charBlt, decide_eq_true_eq] at *
  omega

theorem listLtB_asymm : ∀ {a b : List Char}, listLtB a b = true → listLtB b a = false
  | [], [], h => by simp [listLtB] at h
  | [], _ :: _, _ => by simp [listLtB]
  | _ :: _, [], h => by simp [listLtB] at h
  | a :: as, b :: bs, h => by
    simp only [listLtB] at h ⊢
    by_cases hab : charBlt a b = true
    · simp [hab, charBlt_asymm hab]
    · rw [Bool.not_eq_true] at hab
      by_cases hba : charBlt b a = true
      · simp [hab, hba] at h
      · rw [Bool.not_eq_true] at hba
        simp only [hab, hba, if_false] at h ⊢
        simp [listLtB_asymm h]

theorem listLtB_antisymm : ∀ {a b : List Char},
    listLtB a b = false → listLtB b a = false → a = b
  | [], [], _, _ => rfl
  | [], _ :: _, h, _ => by simp [listLtB] at h
  | _ :: _, [], _, h => by simp [listLtB] at h
  | a :: as, b :: bs, h₁, h₂ => by
    simp only [listLtB] at h₁ h₂
    by_cases hab : charBlt a b = true
    · simp [hab] at h₁
    · rw [Bool.not_eq_true] at hab
      by_cases hba : charBlt b a = true
      · simp [hba] at h₂
      · rw [Bool.not_eq_true] at hba
        simp only [hab, hba, if_false] at h₁ h₂
        rw [charBlt_antisymm hab hba, listLtB_antisymm h₁ h₂]

theorem listLtB_trans : ∀ {a b c : List Char},
    listLtB a b = true → listLtB b c = true → listLtB a c = true
  | [], _, _ :: _, _, _ => by simp [listLtB]
  | [], [], c, h, h' => by simpa [listLtB] using h'
  | _, _ :: _, [], _, h' => by simp [listLtB] at h'
  | _ :: _, [], _, h, _ => by simp [listLtB] at h
  | a :: as, b :: bs, c :: cs, h₁, h₂ => by
    simp only [listLtB] at h₁ h₂ ⊢
    by_cases hab : charBlt a b = true
    · -- a < b
      by_cases hbc : charBlt b c = true
      · simp [charBlt_trans hab hbc]
      · rw [Bool.not_eq_true] at hbc
        by_cases hcb : charBlt c b = true
        · simp [hbc, hcb] at h₂
        · rw [Bool.not_eq_true] at hcb
          rw [charBlt_antisymm hbc hcb] at hab
          simp [hab]
    · rw [Bool.not_eq_true] at hab
      by_cases hba : charBlt b a = true
      · simp [hab, hba] at h₁
      · rw [Bool.not_eq_true] at hba
        have hEq := charBlt_antisymm hab hba
        subst hEq
        simp only [hab, hba, if_false] at h₁ ⊢
        by_cases hac : charBlt a c = true
        · simp [hac]
        · rw [Bool.not_eq_true] at hac
          by_cases hca : charBlt c a = true
          · simp [hac, hca] at h₂
          · rw [Bool.not_eq_true] at hca
            simp only [hac, hca, if_false] at h₂ ⊢
            exact listLtB_trans h₁ h₂

theorem strLeB_total (a b : String) : strLeB a b = true ∨ strLeB b a = true := by
  simp only [strLeB, strLtB, Bool.not_eq_true', Bool.not_eq_true]
  by_cases h : listLtB b.data a.data = true
  · right; exact listLtB_asymm h
  · left; simpa using h

theorem strLeB_trans {a b c : String} (h₁ : strLeB a b = true) (h₂ : strLeB b c = true) :
    strLeB a c = true := by
  simp only [strLeB, strLtB, Bool.not_eq_true'] at *
  by_cases hca : listLtB c.data a.data = true
  · exfalso
    by_cases hcb : listLtB c.data b.data = true
    · simp [hcb] at h₂
    · rw [Bool.not_eq_true] at hcb
      by_cases hbc : listLtB b.data c.data = true
      · have := listLtB_trans hbc hca
        simp [this] at h₁
      · rw [Bool.not_eq_true] at hbc
        have hEq := listLtB_antisymm hbc hcb
        rw [← hEq] at hca
        simp [hca] at h₁
  · simpa using hca

/-- Refuting `strLeB` means strict `strLtB` the other way. -/
theorem strLtB_of_not_strLeB {a b : String} (h : strLeB a b = false) : strLtB b a = true := by
  simpa [strLeB] using h

theorem strLtB_ne {a b : String} (h : strLtB a b = true) : a ≠ b := by
  intro hEq
  subst hEq
  have : listLtB a.data a.data = false := by
    have := listLtB_asymm (a := a.data) (b := a.data)
    by_cases hl : listLtB a.data a.data = true
    · exact this hl
    · simpa using hl
  simp [strLtB, this] at h

/-! ### Stable sort by key: the embedding of Python `sorted(l, key=k)`

`sortK le` is insertion sort with a Bool comparator; an element coming
earlier in the input is inserted in front of later, comparator-equal
elements, so the sort is stable.  Python's `sorted` is exactly the stable
sort for the total preorder `le`, and a stable sorted permutation is
unique, so `sortK` is a faithful embedding. -/

def insertK (le : α → α → Bool) (x : α) : List α → List α
  | [] => [x]
  | y :: ys => if le x y then x :: y :: ys else y :: insertK le x ys

def sortK (le : α → α → Bool) : List α → List α
  | [] => []
  | x :: xs => insertK le x (sortK le xs)

theorem insertK_perm (le : α → α → Bool) (x : α) :
    ∀ l : List α, (insertK le x l).Perm (x :: l)
  | [] => List.Perm.refl _
  | y :: ys => by
    simp only [insertK]
    by_cases h : le x y = true
    · simp [h]
    · rw [Bool.not_eq_true] at h
      simp only [h, if_false]
      exact ((insertK_perm le x ys).cons y).trans (List.Perm.swap x y ys)

theorem sortK_perm (le : α → α → Bool) : ∀ l : List α, (sortK le l).Perm l
  | [] => List.Perm.refl _
  | x :: xs => by
    simp only [sortK]
    exact (insertK_perm le x (sortK le xs)).trans ((sortK_perm le xs).cons x)

theorem mem_insertK {le : α → α → Bool} {x z : α} {l : List α}
    (h : z ∈ insertK le x l) : z = x ∨ z ∈ l := by
  have := (insertK_perm le x l).mem_iff.mp h
  simpa using this

theorem pairwise_insertK (le : α → α → Bool)
    (htot : ∀ a b, le a b = true ∨ le b a = true)
    (htrans : ∀ a b c, le a b = true → le b c = true → le a c = true)
    (x : α) : ∀ l : List α, l.Pairwise (fun a b => le a b = true) →
    (insertK le x l).Pairwise (fun a b => le a b = true)
  | [], _ => by simp [insertK]
  | y :: ys, h => by
    rw [List.pairwise_cons] at h
    obtain ⟨hy, hys⟩ := h
    simp only [insertK]
    by_cases hxy : le x y = true
    · rw [if_pos hxy, List.pairwise_cons]
      constructor
      · intro z hz
        rcases List.mem_cons.mp hz with hz | hz
        · subst hz; exact hxy
        · exact htrans x y z hxy (hy z hz)
      · rw [List.pairwise_cons]; exact ⟨hy, hys⟩
    · rw [Bool.not_eq_true] at hxy
      have hyx : le y x = true := by
        rcases htot x y with h | h
        · rw [h] at hxy; cases hxy
        · exact h
      rw [if_neg (by simp [hxy]), List.pairwise_cons]
      constructor
      · intro z hz
        rcases mem_insertK hz with hz | hz
        · subst hz; exact hyx
        · exact hy z hz
      · exact pairwise_insertK le htot htrans x ys hys

theorem pairwise_sortK (le : α → α → Bool)
    (htot : ∀ a b, le a b = true ∨ le b a = true)
    (htrans : ∀ a b c, le a b = true → le b c = true → le a c = true) :
    ∀ l : List α, (sortK le l).Pairwise (fun a b => le a b = true)
  | [] => by simp [sortK]
  | x :: xs => by
    simp only [sortK]
    exact pairwise_insertK le htot htrans x (sortK le xs)
      (pairwise_sortK le htot htrans xs)

/-- Key-based comparator: compare elements by a string key, Python style. -/
def keyLeB (key : α → String) (a b : α) : Bool := strLeB (key a) (key b)

/-- The embedding of Python `sorted(l, key=key)` for a string-valued key. -/
def sortByKeyStr (key : α → String) (l : List α) : List α := sortK (keyLeB key) l

/-- Inserting `x` leaves the key-`z` fibre intact except that `x`, when its key
is `z`, lands in front of it: the elements skipped over all have a key
strictly below `key x`, hence different from it. -/
theorem filter_insertK_key (key : α → String) (z : String) (x : α) :
    ∀ l : List α,
      (insertK (keyLeB key) x l).filter (fun r => key r == z) =
        if key x == z then x :: l.filter (fun r => key r == z)
        else l.filter (fun r => key r == z)
  | [] => by
    simp only [insertK, List.filter]
    by_cases h : (key x == z) = true
    · simp [h]
    · simp [List.filter, h]
  | y :: ys => by
    simp only [insertK]
    by_cases hxy : keyLeB key x y = true
    · rw [if_pos hxy, List.filter_cons]
    · rw [Bool.not_eq_true] at hxy
      have hne : key y ≠ key x := strLtB_ne (strLtB_of_not_strLeB hxy)
      rw [if_neg (by simp [hxy]), List.filter_cons, filter_insertK_key key z x ys]
      by_cases h : (key x == z) = true
      · have hyz : (key y == z) = false := by
          rw [beq_eq_false_iff_ne]
          rw [beq_iff_eq] at h
          rw [h] at hne
          exact hne
        simp [h, hyz, List.filter_cons]
      · rw [Bool.not_eq_true] at h
        simp [h, List.filter_cons]

/-- Stability of the sort: every key fibre of the output is the key fibre of
the input, in the input's order. -/
theorem sortByKeyStr_stable (key : α → String) (z : String) :
    ∀ l : List α,
      (sortByKeyStr key l).filter (fun r => key r == z) =
        l.filter (fun r => key r == z)
  | [] => rfl
  | x :: xs => by
    simp only [sortByKeyStr, sortK, filter_insertK_key key z x (sortK (keyLeB key) xs)]
    rw [show sortK (keyLeB key) xs = sortByKeyStr key xs from rfl,
      sortByKeyStr_stable key z xs]
    by_cases h : key x == z
    · simp [List.filter_cons, h]
    · simp [List.filter_cons, h]

theorem sortByKeyStr_perm (key : α → String) (l : List α) :
    (sortByKeyStr key l).Perm l := sortK_perm _ l

theorem sortByKeyStr_pairwise (key : α → String) (l : List α) :
    (sortByKeyStr key l).Pairwise (fun a b => strLeB (key a) (key b) = true) :=
  pairwise_sortK (keyLeB key)
    (fun a b => strLeB_total (key a) (key b))
    (fun _ _ _ h₁ h₂ => strLeB_trans h₁ h₂) l

/-! ### `PDF.setAddressList`: cleaning, row repair, zip sort, address strings

`setAddressList` reads CSV rows (the reader itself is external); every row is
a `List String` of fields.  The embedding takes the parsed row list as input
and mirrors the body of the `with open(...)` block of `PDFMail.py`,
lines 48-75. -/

/-- Removal of every occurrence of one character.  Python `str.replace` with
a 1-character pattern and an empty replacement deletes exactly the
occurrences of that character, i.e. filters it out. -/
def removeChar (c : Char) (s : String) : String := ⟨s.data.filter (fun d => d != c)⟩

/-- Field cleaning, line 54: `r.replace('"','').replace("=","")`. -/
def cleanField (s : String) : String := removeChar '=' (removeChar '\"' s)

/-- One row cleaned, line 54. -/
def cleanRow (row : List String) : List String := row.map cleanField

/-- The row-repair pass, lines 58-65.  The Python loop walks `allRows` by
index; a row with fewer than 5 fields is not kept, and its fields —
newline-joined plus a trailing newline — are prepended as one combined field
onto the row at the next index (in place, so the loop next visits the merged
row).  A fragment in the last position evaluates `allRows[ii+1]` out of
range and raises `IndexError`, embedded as `none`. -/
def repair : List (List String) → Option (List (List String))
  | [] => some []
  | [r] => if r.length < 5 then none else some [r]
  | r :: s :: rest =>
    if r.length < 5 then
      repair (((String.intercalate "\n" r ++ "\n") :: s) :: rest)
    else
      (repair (s :: rest)).map (r :: ·)
termination_by l => l.length

/-- The sort key of line 69, `lambda x: x[-1]`: the row's last field.
Every row reaching the sort has at least 5 fields, so the default is
never consulted. -/
def lastField (row : List String) : String := row.getLastD ""

/-- Lines 74-75: `city = " ".join(row[-3:])`;
`"\n".join(row[0:-3] + [city])`. -/
def addressString (row : List String) : String :=
  let city := String.intercalate " " (row.drop (row.length - 3))
  String.intercalate "\n" (row.take (row.length - 3) ++ [city])

/-- The whole of `setAddressList` (lines 41-75) applied to the parsed rows:
skip `headerLines` rows, clean the fields, repair fragment rows, optionally
sort by the last field, and render the address strings.  `none` models the
`IndexError` escaping when a fragment row ends the table; the `addresses`
attribute is only assigned on success. -/
def setAddressListRows (rows : List (List String)) (headerLines : Nat)
    (sortByZip : Bool) : Option (List String) :=
  let allRows := (rows.drop headerLines).map cleanRow
  (repair allRows).map fun aR =>
    let aRs := if sortByZip then sortByKeyStr lastField aR else aR
    aRs.map addressString

/-! ### Geometry and page emission

Dimensions are in inches, embedded as rationals.  A `Sheet` is one emitted
PDF page: the image placements (`self.image` calls) and text blocks
(`self.multi_cell` calls) it received. -/

structure ImagePlace where
  file : String
  x : ℚ
  y : ℚ
  w : ℚ
  h : ℚ
deriving DecidableEq

structure TextPlace where
  x : ℚ
  y : ℚ
  w : ℚ
  lineH : ℚ
  txt : String
deriving DecidableEq

structure Sheet where
  images : List ImagePlace
  texts : List TextPlace
deriving DecidableEq

/-- The document state set up by `PDF.__init__` (lines 20-39) plus the
address list set by `setAddressList`.  `w`/`h` are the page dimensions the
FPDF base class derives from format `letter` and the orientation chosen on
line 29: portrait when `numPerPage == 2`, else landscape. -/
structure PDFState where
  recto : String
  verso : String
  numPerPage : Nat
  margin : ℚ
  xAdjust : ℚ
  yAdjust : ℚ
  w : ℚ
  h : ℚ
  addresses : List String
  sortByZip : Bool

/-- Constructor `PDF.__init__`: rejects `numPerPage` outside `[1, 2]` (lines 27-28) and
fixes the page orientation (line 29): letter is 8.5in × 11in, portrait for
2 per page, landscape for 1 per page. -/
def mkPDF (recto verso : String) (numPerPage : Nat) (margin xAdjust yAdjust : ℚ) :
    Option PDFState :=
  if numPerPage = 1 ∨ numPerPage = 2 then
    some { recto := recto, verso := verso, numPerPage := numPerPage,
           margin := margin, xAdjust := xAdjust, yAdjust := yAdjust,
           w := if numPerPage = 2 then 17/2 else 11,
           h := if numPerPage = 2 then 11 else 17/2,
           addresses := [], sortByZip := false }
  else none

/-- Embedding of `PDF.addTwoPages` (lines 77-92): unless `onlyVerso`, a page with the
recto image, sized `(w-2*margin) × (h-2*margin)` at `(margin, margin)`;
then always a page with the verso image at the same placement. -/
def addTwoPages (st : PDFState) (onlyVerso : Bool) : List Sheet :=
  (if onlyVerso then [] else
    [{ images := [{ file := st.recto, x := st.margin, y := st.margin,
                    w := st.w - 2*st.margin, h := st.h - 2*st.margin }],
       texts := [] }]) ++
  [{ images := [{ file := st.verso, x := st.margin, y := st.margin,
                  w := st.w - 2*st.margin, h := st.h - 2*st.margin }],
     texts := [] }]

/-- Embedding of `PDF.newPageOne` (lines 94-108): the two pages of `addTwoPages`, then
one address block on the current (last) page at
`(0.6*w + xAdjust, 0.55*h + yAdjust)`, line height `0.25`. -/
def newPageOne (st : PDFState) (address : String) (onlyVerso : Bool) : List Sheet :=
  let pages := addTwoPages st onlyVerso
  let xAddress := 3/5 * st.w + st.xAdjust
  let yAddress := st.h * (11/20) + st.yAdjust
  let wBox := st.w - st.margin - 1/2 - xAddress
  let cur := pages.getLastD { images := [], texts := [] }
  pages.dropLast ++
    [{ cur with texts := cur.texts ++ [⟨xAddress, yAddress, wBox, 1/4, address⟩] }]

/-- Embedding of `PDF.newPageTwo` (lines 110-130): the two pages of `addTwoPages`, then
two address blocks on the current (last) page: the first at
`(0.6*w + xAdjust, 0.3*h + yAdjust)`, the second shifted down by `h/2`;
line height `0.2`. -/
def newPageTwo (st : PDFState) (address1 address2 : String) (onlyVerso : Bool) :
    List Sheet :=
  let pages := addTwoPages st onlyVerso
  let xAddress := 3/5 * st.w + st.xAdjust
  let yAddress := st.h * (3/10) + st.yAdjust
  let wBox := st.w - st.margin - 1/2 - xAddress
  let cur := pages.getLastD { images := [], texts := [] }
  pages.dropLast ++
    [{ cur with texts := cur.texts ++
        [⟨xAddress, yAddress, wBox, 1/5, address1⟩,
         ⟨xAddress, yAddress + st.h/2, wBox, 1/5, address2⟩] }]

/-! ### `PDF.createPDF` (lines 132-165): grouping and emission -/

/-- Even-index slice: Python `l[0:2*L:2]` restricted to the first `2*L`
elements (callers pass a list of that exact length). -/
def evens : List α → List α
  | [] => []
  | [a] => [a]
  | a :: _ :: rest => a :: evens rest

/-- Odd-index slice: Python `l[1:2*L:2]`. -/
def odds : List α → List α
  | [] => []
  | _ :: rest => evens rest

/-- Line 148: `if len(addresses) % 2: addresses.append("")`. -/
def padEven (l : List String) : List String :=
  if l.length % 2 = 1 then l ++ [""] else l

/-- Line 153: `zip(addresses[0:L], addresses[L:])` with `L = len//2`
(the cut-and-stack pairing). -/
def pairCut (l : List String) : List (String × String) :=
  (l.take (l.length / 2)).zip (l.drop (l.length / 2))

/-- Line 155: `zip(addresses[0:2*L:2], addresses[1:2*L:2])` (consecutive
pairing). -/
def pairConsec (l : List String) : List (String × String) :=
  (evens (l.take (2 * (l.length / 2)))).zip (odds (l.take (2 * (l.length / 2))))

/-- Lines 146-155: pad to an even count, then pair cut-and-stack when
`self.sortByZip and not testMode`, else consecutively. -/
def groupTwo (sortByZip testMode : Bool) (l : List String) : List (String × String) :=
  let p := padEven l
  if sortByZip && !testMode then pairCut p else pairConsec p

/-- Line 145's sort key ingredient: `max(len(y) for y in x.split('\n'))`. -/
def maxLineLen (s : String) : Nat :=
  ((s.splitOn "\n").map String.length).foldl Nat.max 0

/-- Line 145: `sorted(addresses, key=lambda x: -max(len(y) for y in x.split('\n')))` —
a fresh list, stably sorted by decreasing longest line. -/
def lenSort (l : List String) : List String :=
  sortK (fun a b => decide ((-(maxLineLen a : ℤ)) ≤ (-(maxLineLen b : ℤ)))) l

/-- Lines 142-145: the local `addresses` after the optional testMode
reorder.  When `testMode` is off it is (an alias of) `self.addresses`. -/
def preAddrs (st : PDFState) (testMode : Bool) : List String :=
  if testMode then lenSort st.addresses else st.addresses

/-- The page units actually rendered in 2-per-page mode: the grouped pairs
truncated by the slice `addresses[0:numPages]` of line 162. -/
def emittedPairs (st : PDFState) (numPages : Nat) (testMode : Bool) :
    List (String × String) :=
  (groupTwo st.sortByZip testMode (preAddrs st testMode)).take numPages

/-- Result of one `createPDF` call: the pages written to the output file,
and the value of the `self.addresses` attribute after the call. -/
structure PDFRun where
  sheets : List Sheet
  selfAddresses : List String
deriving DecidableEq

/-- Embedding of `PDF.createPDF` (lines 132-165).  Line 142 (`addresses = self.addresses`)
aliases the attribute; the testMode branch (line 145) rebinds the local name
to a fresh sorted list, breaking the alias.  The in-place `append` of
line 148 therefore also grows `self.addresses` exactly when `numPerPage == 2`,
the count is odd, and `testMode` is off. -/
def createPDF (st : PDFState) (numPages : Nat) (testMode : Bool) : PDFRun :=
  let addresses := preAddrs st testMode
  if st.numPerPage = 2 then
    { sheets := (emittedPairs st numPages testMode).flatMap
        (fun p => newPageTwo st p.1 p.2 testMode),
      selfAddresses :=
        if addresses.length % 2 = 1 ∧ testMode = false then st.addresses ++ [""]
        else st.addresses }
  else
    { sheets := (addresses.take numPages).flatMap
        (fun a => newPageOne st a testMode),
      selfAddresses := st.addresses }

/-! ### Index helpers for the grouping proofs -/

theorem getD_zip : ∀ (a : List α) (b : List β) (i : Nat) (d₁ : α) (d₂ : β),
    i < a.length → i < b.length →
    (a.zip b).getD i (d₁, d₂) = (a.getD i d₁, b.getD i d₂)
  | [], _, i, _, _, ha, _ => by simp at ha
  | _ :: _, [], i, _, _, _, hb => by simp at hb
  | x :: xs, y :: ys, 0, d₁, d₂, _, _ => by simp [List.zip_cons_cons]
  | x :: xs, y :: ys, i + 1, d₁, d₂, ha, hb => by
    simp only [List.zip_cons_cons, List.getD_cons_succ]
    exact getD_zip xs ys i d₁ d₂ (by simpa using ha) (by simpa using hb)

theorem getD_take : ∀ (l : List α) (n i : Nat) (d : α), i < n →
    (l.take n).getD i d = l.getD i d
  | [], _, _, _, _ => by simp
  | _ :: _, 0, i, _, h => by omega
  | _ :: _, n + 1, 0, _, _ => by simp
  | _ :: xs, n + 1, i + 1, d, h => by
    simp only [List.take_cons, List.getD_cons_succ]
    exact getD_take xs n i d (by omega)

theorem getD_drop : ∀ (l : List α) (n i : Nat) (d : α),
    (l.drop n).getD i d = l.getD (n + i) d
  | _, 0, _, _ => by simp
  | [], n + 1, _, _ => by simp
  | _ :: xs, n + 1, i, d => by
    simp only [List.drop_succ_cons, List.getD_cons_succ, Nat.succ_add]
    exact getD_drop xs n i d

theorem getD_concat_length : ∀ (l : List α) (x d : α), (l ++ [x]).getD l.length d = x
  | [], _, _ => by simp
  | a :: as, x, d => by
    simp only [List.cons_append, List.length_cons, List.getD_cons_succ]
    exact getD_concat_length as x d

theorem getD_eq_of_lt {l : List α} {i : Nat} (h : i < l.length) (d d' : α) :
    l.getD i d = l.getD i d' := by
  rw [List.getD_eq_getElem?_getD, List.getD_eq_getElem?_getD, List.getElem?_eq_getElem h]
  rfl

theorem getLastD_eq_getD (l : List α) (d : α) : l.getLastD d = l.getD (l.length - 1) d := by
  rw [List.getLastD_eq_getLast?, List.getLast?_eq_getElem?, ← List.getD_eq_getElem?_getD]

theorem length_evens : ∀ l : List α, (evens l).length = (l.length + 1) / 2
  | [] => by simp [evens]
  | [a] => by simp [evens]
  | a :: b :: rest => by
    simp only [evens, List.length_cons, length_evens rest]
    omega

theorem length_odds (l : List α) : (odds l).length = l.length / 2 := by
  cases l with
  | nil => simp [odds]
  | cons a rest =>
    simp only [odds, length_evens rest, List.length_cons]

theorem evens_getD : ∀ (l : List α) (i : Nat) (d : α),
    (evens l).getD i d = l.getD (2 * i) d
  | [], i, d => by simp [evens]
  | [a], i, d => by
    cases i with
    | zero => rfl
    | succ n =>
      have h2 : 2 * (n + 1) = 2 * n + 1 + 1 := by omega
      simp [evens, h2, List.getD]
  | a :: b :: rest, i, d => by
    cases i with
    | zero => rfl
    | succ n =>
      have h2 : 2 * (n + 1) = 2 * n + 1 + 1 := by omega
      simp only [evens, List.getD_cons_succ, h2]
      exact evens_getD rest n d

theorem odds_getD (l : List α) (i : Nat) (d : α) :
    (odds l).getD i d = l.getD (2 * i + 1) d := by
  cases l with
  | nil => simp [odds]
  | cons a rest =>
    simp only [odds, List.getD_cons_succ, evens_getD rest i d]

theorem padEven_length_even (l : List String) : (padEven l).length % 2 = 0 := by
  unfold padEven
  by_cases h : l.length % 2 = 1
  · simp only [h, if_true, List.length_append, List.length_cons, List.length_nil]
    omega
  · simp only [h, if_false]
    omega

theorem length_pairCut (p : List String) : (pairCut p).length = p.length / 2 := by
  simp only [pairCut, List.length_zip, List.length_take, List.length_drop]
  omega

theorem length_pairConsec (p : List String) : (pairConsec p).length = p.length / 2 := by
  simp only [pairConsec, List.length_zip, length_evens, length_odds, List.length_take]
  omega

theorem pairCut_getD (p : List String) (i : Nat) (he : p.length % 2 = 0)
    (hi : i < p.length / 2) :
    (pairCut p).getD i ("", "") = (p.getD i "", p.getD (i + p.length / 2) "") := by
  unfold pairCut
  rw [getD_zip _ _ i "" ""
      (by simp only [List.length_take]; omega)
      (by simp only [List.length_drop]; omega),
    getD_take _ _ _ _ hi, getD_drop]
  rw [Nat.add_comm]

theorem pairConsec_getD (p : List String) (i : Nat) (he : p.length % 2 = 0)
    (hi : i < p.length / 2) :
    (pairConsec p).getD i ("", "") = (p.getD (2 * i) "", p.getD (2 * i + 1) "") := by
  unfold pairConsec
  have htk : p.take (2 * (p.length / 2)) = p := by
    rw [show 2 * (p.length / 2) = p.length by omega, List.take_length]
  rw [htk, getD_zip _ _ i "" ""
      (by rw [length_evens]; omega)
      (by rw [length_odds]; omega),
    evens_getD, odds_getD]

/-! ### The claims -/

/-- C1: for perSheet = 2, with sortedByZip set and testMode off, the grouped
sequence obeys the cut-and-stack rule on the padded even-length address list
(`N` elements): `PageUnit[i] = (address[i], address[i + N/2])` for every
`i < N/2`; otherwise (not sorted, or testMode on) it pairs consecutively:
`PageUnit[i] = (address[2i], address[2i+1])`. -/
theorem claim_C1 (l : List String) (zb tm : Bool) (i : Nat)
    (hi : i < (padEven l).length / 2) :
    (zb = true ∧ tm = false →
      (groupTwo zb tm l).getD i ("", "") =
        ((padEven l).getD i "",
         (padEven l).getD (i + (padEven l).length / 2) "")) ∧
    ((zb = false ∨ tm = true) →
      (groupTwo zb tm l).getD i ("", "") =
        ((padEven l).getD (2 * i) "", (padEven l).getD (2 * i + 1) "")) := by
  have he := padEven_length_even l
  constructor
  · rintro ⟨rfl, rfl⟩
    rw [show groupTwo true false l = pairCut (padEven l) from by simp [groupTwo]]
    exact pairCut_getD _ i he hi
  · intro h
    have hc : (zb && !tm) = false := by
      rcases h with h | h <;> simp [h]
    rw [show groupTwo zb tm l = pairConsec (padEven l) from by simp [groupTwo, hc]]
    exact pairConsec_getD _ i he hi

theorem claim_C1_witness :
    ((groupTwo true false ["a", "b", "c", "d"]).getD 1 ("", "") =
      ((padEven ["a", "b", "c", "d"]).getD 1 "",
       (padEven ["a", "b", "c", "d"]).getD
         (1 + (padEven ["a", "b", "c", "d"]).length / 2) "")) ∧
    ((groupTwo false true ["a", "b", "c", "d"]).getD 1 ("", "") =
      ((padEven ["a", "b", "c", "d"]).getD (2 * 1) "",
       (padEven ["a", "b", "c", "d"]).getD (2 * 1 + 1) "")) ∧
    (groupTwo true false ["a", "b", "c", "d"]).getD 1 ("", "") = ("b", "d") :=
  ⟨(claim_C1 ["a", "b", "c", "d"] true false 1 (by decide)).1 ⟨rfl, rfl⟩,
   (claim_C1 ["a", "b", "c", "d"] false true 1 (by decide)).2 (Or.inr rfl),
   by decide⟩

/-- C8: for perSheet = 2 and an odd address count, exactly one empty address
string is appended (making the count even) and the second slot of the final
page unit is the empty string, under both the cut-and-stack and the
consecutive pairing. -/
theorem claim_C8 (l : List String) (hodd : l.length % 2 = 1) :
    padEven l = l ++ [""] ∧
    (padEven l).length % 2 = 0 ∧
    (∀ zb tm : Bool, ((groupTwo zb tm l).getLastD ("X", "X")).2 = "") := by
  have hp : padEven l = l ++ [""] := by unfold padEven; rw [if_pos hodd]
  have hlen : (padEven l).length = l.length + 1 := by rw [hp]; simp
  have he := padEven_length_even l
  refine ⟨hp, he, ?_⟩
  intro zb tm
  by_cases hc : (zb && !tm) = true
  · rw [show groupTwo zb tm l = pairCut (padEven l) from by simp [groupTwo, hc],
      getLastD_eq_getD, length_pairCut,
      getD_eq_of_lt (by rw [length_pairCut]; omega) _ ("", ""),
      pairCut_getD _ _ he (by omega)]
    show (padEven l).getD
      ((padEven l).length / 2 - 1 + (padEven l).length / 2) "" = ""
    rw [show (padEven l).length / 2 - 1 + (padEven l).length / 2 = l.length by omega,
      hp]
    exact getD_concat_length l "" ""
  · rw [Bool.not_eq_true] at hc
    rw [show groupTwo zb tm l = pairConsec (padEven l) from by simp [groupTwo, hc],
      getLastD_eq_getD, length_pairConsec,
      getD_eq_of_lt (by rw [length_pairConsec]; omega) _ ("", ""),
      pairConsec_getD _ _ he (by omega)]
    show (padEven l).getD (2 * ((padEven l).length / 2 - 1) + 1) "" = ""
    rw [show 2 * ((padEven l).length / 2 - 1) + 1 = l.length by omega, hp]
    exact getD_concat_length l "" ""

theorem claim_C8_witness :
    padEven ["a", "b", "c"] = ["a", "b", "c"] ++ [""] ∧
    ((groupTwo true false ["a", "b", "c"]).getLastD ("X", "X")).2 = "" ∧
    ((groupTwo false false ["a", "b", "c"]).getLastD ("X", "X")).2 = "" :=
  ⟨(claim_C8 ["a", "b", "c"] (by decide)).1,
   (claim_C8 ["a", "b", "c"] (by decide)).2.2 true false,
   (claim_C8 ["a", "b", "c"] (by decide)).2.2 false false⟩

/-- Concrete document state used to instantiate the theorems: portrait
letter, 2 per page, three addresses (odd count), zip-sorted input. -/
def sampleState : PDFState :=
  { recto := "recto.png", verso := "verso.png", numPerPage := 2, margin := 0,
    xAdjust := 0, yAdjust := 0, w := 17/2, h := 11,
    addresses := ["a", "bb", "ccc"], sortByZip := true }

/-- C7: for maxPages = k in 2-per-page mode, exactly `min k (number of page
units)` page pairs are emitted, and the truncation acts on the grouped pair
sequence built from the full padded address list, not on the raw addresses
before grouping. -/
theorem claim_C7 (st : PDFState) (k : Nat) (tm : Bool) (h2 : st.numPerPage = 2) :
    (emittedPairs st k tm).length =
      min k (groupTwo st.sortByZip tm (preAddrs st tm)).length ∧
    emittedPairs st k tm = (groupTwo st.sortByZip tm (preAddrs st tm)).take k ∧
    (createPDF st k tm).sheets =
      (emittedPairs st k tm).flatMap (fun p => newPageTwo st p.1 p.2 tm) := by
  refine ⟨?_, rfl, ?_⟩
  · simp [emittedPairs, List.length_take]
  · simp [createPDF, h2]

theorem claim_C7_witness :
    (emittedPairs sampleState 2 false).length =
      min 2 (groupTwo sampleState.sortByZip false (preAddrs sampleState false)).length ∧
    emittedPairs sampleState 2 false =
      (groupTwo sampleState.sortByZip false (preAddrs sampleState false)).take 2 ∧
    (createPDF sampleState 2 false).sheets =
      (emittedPairs sampleState 2 false).flatMap
        (fun p => newPageTwo sampleState p.1 p.2 false) :=
  claim_C7 sampleState 2 false rfl

/-- C9: in 2-per-page mode with testMode off and an odd stored address count,
`createPDF` appends the padding to `self.addresses` itself, leaving it one
element longer; with an even count it is untouched, and with testMode on the
padding happens on a fresh sorted copy, so `self.addresses` is unchanged. -/
theorem claim_C9 (st : PDFState) (k : Nat) (h2 : st.numPerPage = 2) :
    (st.addresses.length % 2 = 1 →
      (createPDF st k false).selfAddresses = st.addresses ++ [""] ∧
      (createPDF st k false).selfAddresses.length = st.addresses.length + 1) ∧
    (st.addresses.length % 2 = 0 →
      (createPDF st k false).selfAddresses = st.addresses) ∧
    (createPDF st k true).selfAddresses = st.addresses := by
  refine ⟨?_, ?_, ?_⟩
  · intro hodd
    have h : (createPDF st k false).selfAddresses = st.addresses ++ [""] := by
      simp [createPDF, h2, preAddrs, hodd]
    exact ⟨h, by rw [h]; simp⟩
  · intro heven
    simp [createPDF, h2, preAddrs, heven]
  · simp [createPDF, h2, preAddrs]

theorem claim_C9_witness :
    ((createPDF sampleState 5 false).selfAddresses =
      sampleState.addresses ++ [""]) ∧
    ((createPDF sampleState 5 false).selfAddresses.length =
      sampleState.addresses.length + 1) ∧
    ((createPDF sampleState 5 true).selfAddresses = sampleState.addresses) :=
  ⟨((claim_C9 sampleState 5 rfl).1 (by decide)).1,
   ((claim_C9 sampleState 5 rfl).1 (by decide)).2,
   (claim_C9 sampleState 5 rfl).2.2⟩

/-- The one full-sheet image placement of `addTwoPages`. -/
def fullImage (st : PDFState) (file : String) : ImagePlace :=
  ⟨file, st.margin, st.margin, st.w - 2*st.margin, st.h - 2*st.margin⟩

/-- The two address text blocks `newPageTwo` puts on the verso page. -/
def twoAddressBlocks (st : PDFState) (a1 a2 : String) : List TextPlace :=
  [⟨3/5 * st.w + st.xAdjust, st.h * (3/10) + st.yAdjust,
    st.w - st.margin - 1/2 - (3/5 * st.w + st.xAdjust), 1/5, a1⟩,
   ⟨3/5 * st.w + st.xAdjust, st.h * (3/10) + st.yAdjust + st.h/2,
    st.w - st.margin - 1/2 - (3/5 * st.w + st.xAdjust), 1/5, a2⟩]

/-- The single address text block `newPageOne` puts on the verso page. -/
def oneAddressBlock (st : PDFState) (a : String) : List TextPlace :=
  [⟨3/5 * st.w + st.xAdjust, st.h * (11/20) + st.yAdjust,
    st.w - st.margin - 1/2 - (3/5 * st.w + st.xAdjust), 1/4, a⟩]

/-- C10: testMode is forwarded as the onlyVerso flag of page emission in both
loops of `createPDF` — the 2-per-page document is the concatenation over the
emitted pairs of `newPageTwo ... testMode`, the 1-per-page document the
concatenation over the emitted addresses of `newPageOne ... testMode` — and
with onlyVerso set each page unit emits exactly one page, the verso page
carrying its address(es), while with it clear each unit emits exactly two
pages: the recto image page first, then the verso page with the
address(es). -/
theorem claim_C10 (st : PDFState) (k : Nat) (tm : Bool) (a1 a2 : String) :
    (st.numPerPage = 2 →
      (createPDF st k tm).sheets =
        (emittedPairs st k tm).flatMap (fun p => newPageTwo st p.1 p.2 tm)) ∧
    (st.numPerPage = 1 →
      (createPDF st k tm).sheets =
        ((preAddrs st tm).take k).flatMap (fun a => newPageOne st a tm)) ∧
    newPageTwo st a1 a2 true =
      [{ images := [fullImage st st.verso],
         texts := twoAddressBlocks st a1 a2 }] ∧
    newPageTwo st a1 a2 false =
      [{ images := [fullImage st st.recto], texts := [] },
       { images := [fullImage st st.verso],
         texts := twoAddressBlocks st a1 a2 }] ∧
    newPageOne st a1 true =
      [{ images := [fullImage st st.verso],
         texts := oneAddressBlock st a1 }] ∧
    newPageOne st a1 false =
      [{ images := [fullImage st st.recto], texts := [] },
       { images := [fullImage st st.verso],
         texts := oneAddressBlock st a1 }] ∧
    (newPageTwo st a1 a2 true).length = 1 ∧
    (newPageTwo st a1 a2 false).length = 2 ∧
    (newPageOne st a1 true).length = 1 ∧
    (newPageOne st a1 false).length = 2 := by
  refine ⟨?_, ?_, rfl, rfl, rfl, rfl, rfl, rfl, rfl, rfl⟩
  · intro h2
    simp [createPDF, h2]
  · intro h1
    simp [createPDF, h1]

/-- C2: a data row with fewer than 5 fields followed by another row is merged
by prepending its fields — newline-joined, with one trailing newline — as a
single combined field onto the immediately following row; when the merge
completes the record (the merged row reaches 5 fields, as in the spec's
3-fields-then-5-fields scenario) the merged pair contributes exactly one
output record, not two. -/
theorem claim_C2 (r s : List String) (rest : List (List String))
    (hfrag : r.length < 5) :
    repair (r :: s :: rest) =
      repair (((String.intercalate "\n" r ++ "\n") :: s) :: rest) ∧
    (4 ≤ s.length →
      repair (r :: s :: rest) =
        (repair rest).map ((((String.intercalate "\n" r ++ "\n") :: s)) :: ·)) := by
  have h1 : repair (r :: s :: rest) =
      repair (((String.intercalate "\n" r ++ "\n") :: s) :: rest) := by
    simp only [repair]
    rw [if_pos hfrag]
  refine ⟨h1, fun hs => ?_⟩
  rw [h1]
  have hge : ¬ ((String.intercalate "\n" r ++ "\n") :: s).length < 5 := by
    simp only [List.length_cons]
    omega
  cases rest with
  | nil =>
    simp only [repair]
    rw [if_neg hge]
    rfl
  | cons t ts =>
    simp only [repair]
    rw [if_neg hge]

theorem claim_C2_witness :
    (repair [["f"], ["a", "b", "c", "d", "e"]] =
      repair [(String.intercalate "\n" ["f"] ++ "\n") :: ["a", "b", "c", "d", "e"]]) ∧
    (repair [["f"], ["a", "b", "c", "d", "e"]] =
      (repair []).map
        (((String.intercalate "\n" ["f"] ++ "\n") :: ["a", "b", "c", "d", "e"]) :: ·)) ∧
    repair [["f"], ["a", "b", "c", "d", "e"]] =
      some [["f\n", "a", "b", "c", "d", "e"]] :=
  ⟨(claim_C2 ["f"] ["a", "b", "c", "d", "e"] [] (by decide)).1,
   (claim_C2 ["f"] ["a", "b", "c", "d", "e"] [] (by decide)).2 (by decide),
   by simp [repair]; rfl⟩

/-- C3: a fragment row (fewer than 5 fields) ending the table, with no
following row to merge into, makes normalization fail — the Python code
evaluates `allRows[ii+1]` out of range and the `IndexError` escapes — so no
address list is produced. -/
theorem claim_C3 (rows : List (List String)) (hl : Nat) (zb : Bool)
    (rs : List (List String)) (f : List String)
    (hshape : (rows.drop hl).map cleanRow = rs ++ [f])
    (hok : ∀ r ∈ rs, 5 ≤ r.length) (hf : f.length < 5) :
    setAddressListRows rows hl zb = none := by
  have hrep : ∀ rs' : List (List String), (∀ r ∈ rs', 5 ≤ r.length) →
      repair (rs' ++ [f]) = none := by
    intro rs'
    induction rs' with
    | nil =>
      intro _
      simp [repair, hf]
    | cons a t ih =>
      intro h
      have ha : ¬ a.length < 5 := by
        have := h a (by simp)
        omega
      have ht : ∀ r ∈ t, 5 ≤ r.length := fun r hr => h r (by simp [hr])
      cases t with
      | nil =>
        simp only [List.nil_append, List.cons_append, repair]
        rw [if_neg ha]
        simp [repair, hf]
      | cons b t' =>
        simp only [List.cons_append, repair]
        rw [if_neg ha]
        rw [show b :: (t' ++ [f]) = (b :: t') ++ [f] from rfl, ih ht]
        rfl
  unfold setAddressListRows
  simp only [hshape, hrep rs hok, Option.map_none']

theorem claim_C3_witness :
    setAddressListRows [["a", "b", "c", "d", "e"], ["x"]] 0 false = none :=
  claim_C3 [["a", "b", "c", "d", "e"], ["x"]] 0 false
    [["a", "b", "c", "d", "e"]] ["x"] (by decide) (by decide) (by decide)

/-- C5 as stated is false on the code: the repair pass can emit a record with
six fields — exactly the spec's own fragment scenario, a 1-field row merged
into a following 5-field row, produces one. -/
theorem claim_C5_counterexample :
    (((repair [["f"], ["a", "b", "c", "d", "e"]]).getD []).headD []).length = 6 := by
  simp [repair]

/-- C5 amended: every record the repair pass produces and passes on to
sorting and grouping has at least 5 fields — the normalizer keeps a row
exactly once it reaches 5 or more fields (a merged row can exceed 5). -/
theorem claim_C5_amended (rows : List (List String)) (out : List (List String))
    (h : repair rows = some out) : ∀ r ∈ out, 5 ≤ r.length := by
  induction rows using repair.induct generalizing out with
  | case1 =>
    simp only [repair, Option.some.injEq] at h
    subst h
    simp
  | case2 r hlt =>
    simp only [repair] at h
    rw [if_pos hlt] at h
    exact Option.noConfusion h
  | case3 r hlt =>
    simp only [repair] at h
    rw [if_neg hlt] at h
    obtain rfl : [r] = out := Option.some.inj h
    intro x hx
    rw [List.mem_singleton.mp hx]
    omega
  | case4 r s rest hlt ih =>
    simp only [repair] at h
    rw [if_pos hlt] at h
    exact ih out h
  | case5 r s rest hlt ih =>
    simp only [repair] at h
    rw [if_neg hlt] at h
    rw [Option.map_eq_some'] at h
    obtain ⟨out', hout', rfl⟩ := h
    intro x hx
    rcases List.mem_cons.mp hx with hx | hx
    · subst hx; omega
    · exact ih out' hout' x hx

theorem claim_C5_amended_witness :
    5 ≤ (["f\n", "a", "b", "c", "d", "e"] : List String).length :=
  claim_C5_amended [["f"], ["a", "b", "c", "d", "e"]]
    [["f\n", "a", "b", "c", "d", "e"]]
    (by simp [repair]; rfl) ["f\n", "a", "b", "c", "d", "e"] (by simp)

/-- Modelled from the claim's words, for refutation only: a stable sort of
the repaired records keyed by field index 4 (rather than by the last
field, which is what line 69's `x[-1]` reads). -/
def sortByFieldIdx4 (l : List (List String)) : List (List String) :=
  sortByKeyStr (fun r => r.getD 4 "") l

/-- C6 as stated is false on the code: the sort key is the row's last field,
which for a merged 6-field record is index 5, not index 4.  On the repaired
records of rows `[["f"], [a,b,c,d,z], [p,q,r,s,e]]` the code's ordering and
the field-index-4 ordering disagree. -/
theorem claim_C6_counterexample :
    repair [["f"], ["a", "b", "c", "d", "z"], ["p", "q", "r", "s", "e"]] =
      some [["f\n", "a", "b", "c", "d", "z"], ["p", "q", "r", "s", "e"]] ∧
    sortByKeyStr lastField
        [["f\n", "a", "b", "c", "d", "z"], ["p", "q", "r", "s", "e"]] =
      [["p", "q", "r", "s", "e"], ["f\n", "a", "b", "c", "d", "z"]] ∧
    sortByFieldIdx4
        [["f\n", "a", "b", "c", "d", "z"], ["p", "q", "r", "s", "e"]] =
      [["f\n", "a", "b", "c", "d", "z"], ["p", "q", "r", "s", "e"]] ∧
    sortByKeyStr lastField
        [["f\n", "a", "b", "c", "d", "z"], ["p", "q", "r", "s", "e"]] ≠
      sortByFieldIdx4
        [["f\n", "a", "b", "c", "d", "z"], ["p", "q", "r", "s", "e"]] := by
  refine ⟨by simp [repair]; rfl, by decide, by decide, by decide⟩

/-- C6 amended: with sortByZip set the repaired records are stable-sorted by
their last field, compared as strings code point by code point (for a record
with exactly 5 fields the last field is field index 4, the ZIP): the sort is
a permutation, pairwise ordered by last field, and every fibre of records
sharing a last-field value keeps its original relative order; and this is
the sort `setAddressListRows` applies before rendering. -/
theorem claim_C6_amended (l : List (List String)) (z : String) :
    (sortByKeyStr lastField l).Perm l ∧
    (sortByKeyStr lastField l).Pairwise
      (fun a b => strLeB (lastField a) (lastField b) = true) ∧
    (sortByKeyStr lastField l).filter (fun r => lastField r == z) =
      l.filter (fun r => lastField r == z) ∧
    (∀ r : List String, r.length = 5 → lastField r = r.getD 4 "") ∧
    (∀ rows hl, setAddressListRows rows hl true =
      (repair ((rows.drop hl).map cleanRow)).map
        (fun aR => (sortByKeyStr lastField aR).map addressString)) := by
  refine ⟨sortByKeyStr_perm _ l, sortByKeyStr_pairwise _ l,
    sortByKeyStr_stable _ z l, ?_, fun rows hl => rfl⟩
  intro r h5
  rw [lastField, getLastD_eq_getD, h5]

theorem claim_C6_amended_witness :
    (sortByKeyStr lastField
        [["f\n", "a", "b", "c", "d", "z"], ["p", "q", "r", "s", "e"]]).filter
        (fun r => lastField r == "e") =
      List.filter (fun r => lastField r == "e")
        [["f\n", "a", "b", "c", "d", "z"], ["p", "q", "r", "s", "e"]] ∧
    lastField ["p", "q", "r", "s", "e"] = List.getD ["p", "q", "r", "s", "e"] 4 "" :=
  ⟨(claim_C6_amended [["f\n", "a", "b", "c", "d", "z"], ["p", "q", "r", "s", "e"]]
      "e").2.2.1,
   (claim_C6_amended [] "").2.2.2.1 ["p", "q", "r", "s", "e"] (by decide)⟩

/-- C4 as stated is false on the code: in 2-per-sheet mode `addTwoPages`
places ONE image per emitted sheet, sized `(w − 2·margin) × (h − 2·margin)`,
not two stacked half-height copies of size `(w − 2·margin) × ((h − 4·margin)/2)`.
Concretely, with the portrait-letter state (margin 0) the verso sheet holds
1 image, not 2, and its height is 11, not (11 − 0)/2. -/
theorem claim_C4_counterexample :
    ((addTwoPages sampleState true).headD { images := [], texts := [] }).images.length
        = 1 ∧
    (1 : Nat) ≠ 2 ∧
    (((addTwoPages sampleState true).headD
        { images := [], texts := [] }).images.headD ⟨"", 0, 0, 0, 0⟩).h = 11 ∧
    (11 : ℚ) ≠ (11 - 4 * 0) / 2 := by
  refine ⟨rfl, by decide, ?_, by norm_num⟩
  show sampleState.h - 2 * sampleState.margin = 11
  norm_num [sampleState]

/-- C4 amended: in 2-per-sheet mode each emitted sheet holds exactly one
image — the front sheet the front image and the back sheet the back image —
placed at (margin, margin) with size
(sheetWidth − 2·margin) × (sheetHeight − 2·margin); the two-up appearance
comes from the supplied image content, not from placing two copies. -/
theorem claim_C4_amended (st : PDFState) (v : Bool) :
    addTwoPages st false =
      [{ images := [fullImage st st.recto], texts := [] },
       { images := [fullImage st st.verso], texts := [] }] ∧
    addTwoPages st true = [{ images := [fullImage st st.verso], texts := [] }] ∧
    ∀ sheet ∈ addTwoPages st v, sheet.images.length = 1 ∧
      ∀ img ∈ sheet.images, img.x = st.margin ∧ img.y = st.margin ∧
        img.w = st.w - 2 * st.margin ∧ img.h = st.h - 2 * st.margin := by
  refine ⟨rfl, rfl, ?_⟩
  intro sheet hs
  cases v with
  | false =>
    simp only [addTwoPages] at hs
    rw [if_neg (by simp)] at hs
    simp only [List.cons_append, List.nil_append, List.mem_cons,
      List.mem_singleton, List.not_mem_nil, or_false] at hs
    rcases hs with rfl | rfl
    · exact ⟨rfl, fun img him => by
        rw [List.mem_singleton.mp him]; exact ⟨rfl, rfl, rfl, rfl⟩⟩
    · exact ⟨rfl, fun img him => by
        rw [List.mem_singleton.mp him]; exact ⟨rfl, rfl, rfl, rfl⟩⟩
  | true =>
    simp only [addTwoPages] at hs
    rw [if_pos trivial] at hs
    simp only [List.nil_append, List.mem_singleton] at hs
    subst hs
    exact ⟨rfl, fun img him => by
      rw [List.mem_singleton.mp him]; exact ⟨rfl, rfl, rfl, rfl⟩⟩

theorem claim_C4_amended_witness :
    addTwoPages sampleState true =
      [{ images := [fullImage sampleState sampleState.verso], texts := [] }] ∧
    ({ images := [fullImage sampleState sampleState.verso],
       texts := [] } : Sheet).images.length = 1 :=
  ⟨(claim_C4_amended sampleState true).2.1,
   ((claim_C4_amended sampleState true).2.2
      { images := [fullImage sampleState sampleState.verso], texts := [] }
      (by simp [addTwoPages, fullImage])).1⟩

/-- Concrete 1-per-page document state: landscape letter, line 29. -/
def sampleStateOne : PDFState :=
  { recto := "recto.png", verso := "verso.png", numPerPage := 1, margin := 0,
    xAdjust := 0, yAdjust := 0, w := 11, h := 17/2,
    addresses := ["a", "bb", "ccc"], sortByZip := false }

theorem claim_C10_witness :
    (createPDF sampleState 5 true).sheets =
      (emittedPairs sampleState 5 true).flatMap
        (fun p => newPageTwo sampleState p.1 p.2 true) ∧
    (createPDF sampleStateOne 5 true).sheets =
      ((preAddrs sampleStateOne true).take 5).flatMap
        (fun a => newPageOne sampleStateOne a true) ∧
    newPageTwo sampleState "A" "B" true =
      [{ images := [fullImage sampleState sampleState.verso],
         texts := twoAddressBlocks sampleState "A" "B" }] ∧
    newPageOne sampleStateOne "A" true =
      [{ images := [fullImage sampleStateOne sampleStateOne.verso],
         texts := oneAddressBlock sampleStateOne "A" }] ∧
    (newPageTwo sampleState "A" "B" true).length = 1 ∧
    (newPageTwo sampleState "A" "B" false).length = 2 ∧
    (newPageOne sampleStateOne "A" true).length = 1 ∧
    (newPageOne sampleStateOne "A" false).length = 2 :=
  ⟨(claim_C10 sampleState 5 true "A" "B").1 rfl,
   (claim_C10 sampleStateOne 5 true "A" "B").2.1 rfl,
   (claim_C10 sampleState 5 true "A" "B").2.2.1,
   (claim_C10 sampleStateOne 5 true "A" "B").2.2.2.2.1,
   (claim_C10 sampleState 5 true "A" "B").2.2.2.2.2.2.1,
   (claim_C10 sampleState 5 true "A" "B").2.2.2.2.2.2.2.1,
   (claim_C10 sampleStateOne 5 true "A" "B").2.2.2.2.2.2.2.2.1,
   (claim_C10 sampleStateOne 5 true "A" "B").2.2.2.2.2.2.2.2.2⟩

end PDFMail
